import Mathlib

/-!
Verification of the HypeOn Analytics unified-metrics pipeline and decision
engine contracts.

The BigQuery SQL jobs (`src/bq_sql/create_unified_table_union.sql` and the
single-statement variant) are shallow-embedded over `Option ℚ`: a SQL NULL is
`none`, `SAFE_DIVIDE` returns `none` on a zero or NULL denominator, `NULLIF(x,0)`
maps `0` to `none`, and the aggregates `SUM`/`AVG` ignore NULL inputs and return
NULL when every input is NULL.  Engine components whose code consists only of
schema declarations and design documents in this repository (decision lifecycle,
insight hashing/upsert, noise suppression, disagreement monitor, attribution
allocation) are modelled from the specification, and are marked as such.
-/

namespace HypeonAnalytics

/-- BigQuery `SAFE_DIVIDE(x, y)`: NULL when either operand is NULL or the
denominator is zero; never an error, never an infinity. -/
def safeDiv : Option ℚ → Option ℚ → Option ℚ
  | some x, some y => if y = 0 then none else some (x / y)
  | _, _ => none

/-- BigQuery `NULLIF(x, 0)`: NULL when `x` is NULL or zero, otherwise `x`. -/
def nullif0 : Option ℚ → Option ℚ
  | some x => if x = 0 then none else some x
  | none => none

/-- SQL subtraction: NULL when either operand is NULL. -/
def optSub : Option ℚ → Option ℚ → Option ℚ
  | some x, some y => some (x - y)
  | _, _ => none

/-- BigQuery aggregate `SUM`: NULL inputs are ignored; the result is NULL when
every input is NULL (or there is no input). -/
def sumOpt (l : List (Option ℚ)) : Option ℚ :=
  match l.filterMap id with
  | [] => none
  | v :: vs => some (v :: vs).sum

/-- BigQuery aggregate `AVG`: NULL inputs are ignored; the result is NULL when
every input is NULL (or there is no input). -/
def avgOpt (l : List (Option ℚ)) : Option ℚ :=
  match l.filterMap id with
  | [] => none
  | v :: vs => some ((v :: vs).sum / ((v :: vs).length : ℚ))

theorem safeDiv_none_right (x : Option ℚ) : safeDiv x none = none := by
  cases x <;> rfl

theorem safeDiv_zero_right (x : Option ℚ) : safeDiv x (some 0) = none := by
  cases x <;> simp [safeDiv]

theorem nullif0_zero : nullif0 (some 0) = none := by simp [nullif0]

theorem nullif0_none : nullif0 none = none := rfl

theorem safeDiv_nullif0_of_zero_or_none (x b : Option ℚ)
    (h : b = some 0 ∨ b = none) : safeDiv x (nullif0 b) = none := by
  rcases h with h | h <;> subst h
  · rw [nullif0_zero]; exact safeDiv_none_right x
  · rw [nullif0_none]; exact safeDiv_none_right x

theorem avgOpt_eq_none_iff (l : List (Option ℚ)) :
    avgOpt l = none ↔ l.filterMap id = [] := by
  unfold avgOpt
  rcases h : l.filterMap id with _ | ⟨v, vs⟩ <;> simp

theorem avgOpt_eq_some_iff (l : List (Option ℚ)) (v : ℚ) :
    avgOpt l = some v ↔
      l.filterMap id ≠ [] ∧
        v = (l.filterMap id).sum / ((l.filterMap id).length : ℚ) := by
  unfold avgOpt
  rcases h : l.filterMap id with _ | ⟨w, ws⟩
  · simp
  · simp [eq_comm]

theorem avgOpt_isSome_of_all_some (l : List (Option ℚ)) (hne : l ≠ [])
    (h : ∀ x ∈ l, x.isSome) : (avgOpt l).isSome := by
  rcases l with _ | ⟨a, as⟩
  · exact absurd rfl hne
  · rcases a with _ | av
    · exact absurd (h none (List.mem_cons_self _ _)) (by simp)
    · simp only [avgOpt, List.filterMap_cons, id]
      rcases hfm : (as.filterMap id) with _ | ⟨w, ws⟩ <;> simp

/-! ### Rows of the unified pipeline

`create_unified_table_union.sql` unions two staging tables whose metric
columns are nullable, groups by (client_id, date, channel, campaign_id,
ad_group_id, device) summing each metric, then computes derived ratios and
row-based rolling baselines per (client_id, channel, campaign_id, ad_group_id,
device) series ordered by date.  Dates are embedded as integers (day numbers),
which preserves the ordering and equality structure the SQL uses. -/

structure UnifiedRow where
  client_id : ℤ
  date : ℤ
  channel : String
  campaign_id : Option String
  ad_group_id : Option String
  device : String
  spend : Option ℚ
  clicks : Option ℚ
  impressions : Option ℚ
  conversions : Option ℚ
  revenue : Option ℚ
  sessions : Option ℚ
deriving DecidableEq, Inhabited, Repr

/-- The `GROUP BY 1,2,3,4,5,6` key of `unified_agg`. -/
structure GroupKey where
  client_id : ℤ
  date : ℤ
  channel : String
  campaign_id : Option String
  ad_group_id : Option String
  device : String
deriving DecidableEq, Repr

/-- The `PARTITION BY client_id, channel, campaign_id, ad_group_id, device`
key of the `w7` / `w28` window specifications. -/
structure SeriesKey where
  client_id : ℤ
  channel : String
  campaign_id : Option String
  ad_group_id : Option String
  device : String
deriving DecidableEq, Repr

def rowKey (r : UnifiedRow) : GroupKey :=
  ⟨r.client_id, r.date, r.channel, r.campaign_id, r.ad_group_id, r.device⟩

def seriesKey (r : UnifiedRow) : SeriesKey :=
  ⟨r.client_id, r.channel, r.campaign_id, r.ad_group_id, r.device⟩

/-- One group of `unified_agg`: `SUM` of each metric over the rows of the key. -/
def sumAgg (k : GroupKey) (rows : List UnifiedRow) : UnifiedRow :=
  { client_id := k.client_id, date := k.date, channel := k.channel,
    campaign_id := k.campaign_id, ad_group_id := k.ad_group_id,
    device := k.device,
    spend := sumOpt (rows.map (·.spend)),
    clicks := sumOpt (rows.map (·.clicks)),
    impressions := sumOpt (rows.map (·.impressions)),
    conversions := sumOpt (rows.map (·.conversions)),
    revenue := sumOpt (rows.map (·.revenue)),
    sessions := sumOpt (rows.map (·.sessions)) }

/-- The `unified_agg` CTE: one output row per distinct group key. -/
def unified_agg (raw : List UnifiedRow) : List UnifiedRow :=
  ((raw.map rowKey).dedup).map
    (fun k => sumAgg k (raw.filter (fun r => decide (rowKey r = k))))

/-- Output rows of `marketing_performance_daily` (final SELECT). -/
structure OutRow where
  client_id : ℤ
  date : ℤ
  channel : String
  campaign_id : Option String
  ad_group_id : Option String
  device : String
  spend : Option ℚ
  clicks : Option ℚ
  impressions : Option ℚ
  sessions : Option ℚ
  conversions : Option ℚ
  revenue : Option ℚ
  roas : Option ℚ
  cpa : Option ℚ
  ctr : Option ℚ
  conversion_rate : Option ℚ
  roas_7d_avg : Option ℚ
  revenue_7d_avg : Option ℚ
  roas_28d_avg : Option ℚ
  revenue_28d_avg : Option ℚ
  roas_pct_delta_7d : Option ℚ
  revenue_pct_delta_7d : Option ℚ
  roas_pct_delta_28d : Option ℚ
  revenue_pct_delta_28d : Option ℚ
deriving DecidableEq, Inhabited, Repr

/-- The frame of `ROWS BETWEEN k PRECEDING AND CURRENT ROW` at row index `i`
of a partition ordered as `l`: the slice of indices `max (i-k) 0 .. i`. -/
def windowFrame (k : ℕ) (l : List UnifiedRow) (i : ℕ) : List UnifiedRow :=
  (l.take (i + 1)).drop (i - k)

/-- Row `i` of `with_baselines` plus the final SELECT's percent-deltas, over a
single partition `l` ordered by date.  `w7` is `ROWS BETWEEN 6 PRECEDING AND
CURRENT ROW`, `w28` is `ROWS BETWEEN 27 PRECEDING AND CURRENT ROW`. -/
def mkOut (l : List UnifiedRow) (i : ℕ) : OutRow :=
  let r := l.getD i default
  let f7 := windowFrame 6 l i
  let f28 := windowFrame 27 l i
  let roas := safeDiv r.revenue r.spend
  let roas7 := avgOpt (f7.map (fun x => safeDiv x.revenue x.spend))
  let rev7 := avgOpt (f7.map (·.revenue))
  let roas28 := avgOpt (f28.map (fun x => safeDiv x.revenue x.spend))
  let rev28 := avgOpt (f28.map (·.revenue))
  { client_id := r.client_id, date := r.date, channel := r.channel,
    campaign_id := r.campaign_id, ad_group_id := r.ad_group_id,
    device := r.device,
    spend := r.spend, clicks := r.clicks, impressions := r.impressions,
    sessions := r.sessions, conversions := r.conversions, revenue := r.revenue,
    roas := roas,
    cpa := safeDiv r.spend (nullif0 r.conversions),
    ctr := safeDiv r.clicks (nullif0 r.impressions),
    conversion_rate := safeDiv r.conversions (nullif0 r.sessions),
    roas_7d_avg := roas7, revenue_7d_avg := rev7,
    roas_28d_avg := roas28, revenue_28d_avg := rev28,
    roas_pct_delta_7d := safeDiv (optSub roas roas7) (nullif0 roas7),
    revenue_pct_delta_7d := safeDiv (optSub r.revenue rev7) (nullif0 rev7),
    roas_pct_delta_28d := safeDiv (optSub roas roas28) (nullif0 roas28),
    revenue_pct_delta_28d := safeDiv (optSub r.revenue rev28) (nullif0 rev28) }

/-- All output rows of one (client_id, channel, campaign_id, ad_group_id,
device) partition, `l` being the partition's rows ordered by date. -/
def processPartition (l : List UnifiedRow) : List OutRow :=
  (List.range l.length).map (mkOut l)

/-- `ORDER BY date` inside each window partition. -/
def sortByDate (l : List UnifiedRow) : List UnifiedRow :=
  l.insertionSort (fun a b => a.date ≤ b.date)

/-- `with_baselines` + final SELECT applied to the whole `unified_agg` output:
rows are partitioned by `seriesKey`, each partition ordered by date and
processed with the `w7`/`w28` window frames. -/
def with_baselines (agg : List UnifiedRow) : List OutRow :=
  (((agg.map seriesKey).dedup).map
    (fun k => processPartition
      (sortByDate (agg.filter (fun r => decide (seriesKey r = k)))))).flatten

/-- The `unified_raw` CTE of `create_unified_table_union.sql`: the UNION ALL
of the two staging tables. -/
def unified_raw (ads_daily_staging ga4_daily_staging : List UnifiedRow) :
    List UnifiedRow :=
  ads_daily_staging ++ ga4_daily_staging

/-- The full `marketing_performance_daily` table built by
`create_unified_table_union.sql` from the two staging tables. -/
def marketing_performance_daily
    (ads_daily_staging ga4_daily_staging : List UnifiedRow) : List OutRow :=
  with_baselines (unified_agg (unified_raw ads_daily_staging ga4_daily_staging))

theorem safeDiv_of_zero_or_none (x b : Option ℚ) (h : b = some 0 ∨ b = none) :
    safeDiv x b = none := by
  rcases h with h | h <;> subst h
  · exact safeDiv_zero_right x
  · exact safeDiv_none_right x

theorem mkOut_spend (l : List UnifiedRow) (i : ℕ) :
    (mkOut l i).spend = (l.getD i default).spend := rfl

theorem mkOut_conversions (l : List UnifiedRow) (i : ℕ) :
    (mkOut l i).conversions = (l.getD i default).conversions := rfl

theorem mkOut_impressions (l : List UnifiedRow) (i : ℕ) :
    (mkOut l i).impressions = (l.getD i default).impressions := rfl

theorem mkOut_sessions (l : List UnifiedRow) (i : ℕ) :
    (mkOut l i).sessions = (l.getD i default).sessions := rfl

theorem mkOut_roas (l : List UnifiedRow) (i : ℕ) :
    (mkOut l i).roas =
      safeDiv (l.getD i default).revenue (l.getD i default).spend := rfl

theorem mkOut_cpa (l : List UnifiedRow) (i : ℕ) :
    (mkOut l i).cpa =
      safeDiv (l.getD i default).spend (nullif0 (l.getD i default).conversions) := rfl

theorem mkOut_ctr (l : List UnifiedRow) (i : ℕ) :
    (mkOut l i).ctr =
      safeDiv (l.getD i default).clicks (nullif0 (l.getD i default).impressions) := rfl

theorem mkOut_conversion_rate (l : List UnifiedRow) (i : ℕ) :
    (mkOut l i).conversion_rate =
      safeDiv (l.getD i default).conversions (nullif0 (l.getD i default).sessions) := rfl

theorem mkOut_roas_7d_avg (l : List UnifiedRow) (i : ℕ) :
    (mkOut l i).roas_7d_avg =
      avgOpt ((windowFrame 6 l i).map (fun x => safeDiv x.revenue x.spend)) := rfl

theorem mkOut_revenue_7d_avg (l : List UnifiedRow) (i : ℕ) :
    (mkOut l i).revenue_7d_avg =
      avgOpt ((windowFrame 6 l i).map (·.revenue)) := rfl

theorem mkOut_roas_28d_avg (l : List UnifiedRow) (i : ℕ) :
    (mkOut l i).roas_28d_avg =
      avgOpt ((windowFrame 27 l i).map (fun x => safeDiv x.revenue x.spend)) := rfl

theorem mkOut_revenue_28d_avg (l : List UnifiedRow) (i : ℕ) :
    (mkOut l i).revenue_28d_avg =
      avgOpt ((windowFrame 27 l i).map (·.revenue)) := rfl

theorem mkOut_roas_pct_delta_7d (l : List UnifiedRow) (i : ℕ) :
    (mkOut l i).roas_pct_delta_7d =
      safeDiv (optSub (mkOut l i).roas (mkOut l i).roas_7d_avg)
        (nullif0 (mkOut l i).roas_7d_avg) := rfl

theorem mkOut_revenue_pct_delta_7d (l : List UnifiedRow) (i : ℕ) :
    (mkOut l i).revenue_pct_delta_7d =
      safeDiv (optSub (l.getD i default).revenue (mkOut l i).revenue_7d_avg)
        (nullif0 (mkOut l i).revenue_7d_avg) := rfl

theorem mkOut_roas_pct_delta_28d (l : List UnifiedRow) (i : ℕ) :
    (mkOut l i).roas_pct_delta_28d =
      safeDiv (optSub (mkOut l i).roas (mkOut l i).roas_28d_avg)
        (nullif0 (mkOut l i).roas_28d_avg) := rfl

theorem mkOut_revenue_pct_delta_28d (l : List UnifiedRow) (i : ℕ) :
    (mkOut l i).revenue_pct_delta_28d =
      safeDiv (optSub (l.getD i default).revenue (mkOut l i).revenue_28d_avg)
        (nullif0 (mkOut l i).revenue_28d_avg) := rfl

/-- Every row of `with_baselines agg` is `mkOut s i` for some date-ordered
series `s` built from the rows of `agg` sharing one partition key. -/
theorem mem_with_baselines {agg : List UnifiedRow} {out : OutRow}
    (h : out ∈ with_baselines agg) :
    ∃ s : List UnifiedRow, ∃ i : ℕ,
      i < s.length ∧ out = mkOut s i ∧ ∀ r ∈ s, r ∈ agg := by
  unfold with_baselines at h
  rw [List.mem_flatten] at h
  obtain ⟨part, hpart, hout⟩ := h
  rw [List.mem_map] at hpart
  obtain ⟨k, _, rfl⟩ := hpart
  unfold processPartition at hout
  rw [List.mem_map] at hout
  obtain ⟨i, hi, rfl⟩ := hout
  refine ⟨_, i, List.mem_range.mp hi, rfl, ?_⟩
  intro r hr
  unfold sortByDate at hr
  rw [List.mem_insertionSort] at hr
  exact (List.mem_filter.mp hr).1

/-- C1: in every row of the unified metrics table built by
`create_unified_table_union.sql`, the derived ratios roas = revenue/spend,
cpa = spend/conversions, ctr = clicks/impressions,
conversion_rate = conversions/sessions and every percent-delta
(current − baseline)/baseline are total: a zero or NULL denominator
(spend, conversions, impressions, sessions, or the baseline) makes the
result NULL — never a division error and never an infinity; in particular
spend = 0 implies roas is NULL. -/
theorem C1_union_safe_division (ads ga4 : List UnifiedRow) (out : OutRow)
    (hmem : out ∈ marketing_performance_daily ads ga4) :
    ((out.spend = some 0 ∨ out.spend = none) → out.roas = none) ∧
    ((out.conversions = some 0 ∨ out.conversions = none) → out.cpa = none) ∧
    ((out.impressions = some 0 ∨ out.impressions = none) → out.ctr = none) ∧
    ((out.sessions = some 0 ∨ out.sessions = none) → out.conversion_rate = none) ∧
    ((out.roas_7d_avg = some 0 ∨ out.roas_7d_avg = none) →
      out.roas_pct_delta_7d = none) ∧
    ((out.revenue_7d_avg = some 0 ∨ out.revenue_7d_avg = none) →
      out.revenue_pct_delta_7d = none) ∧
    ((out.roas_28d_avg = some 0 ∨ out.roas_28d_avg = none) →
      out.roas_pct_delta_28d = none) ∧
    ((out.revenue_28d_avg = some 0 ∨ out.revenue_28d_avg = none) →
      out.revenue_pct_delta_28d = none) := by
  obtain ⟨s, i, _, rfl, _⟩ := mem_with_baselines hmem
  refine ⟨?_, ?_, ?_, ?_, ?_, ?_, ?_, ?_⟩
  · intro h
    rw [mkOut_spend] at h
    rw [mkOut_roas]
    exact safeDiv_of_zero_or_none _ _ h
  · intro h
    rw [mkOut_conversions] at h
    rw [mkOut_cpa]
    exact safeDiv_nullif0_of_zero_or_none _ _ h
  · intro h
    rw [mkOut_impressions] at h
    rw [mkOut_ctr]
    exact safeDiv_nullif0_of_zero_or_none _ _ h
  · intro h
    rw [mkOut_sessions] at h
    rw [mkOut_conversion_rate]
    exact safeDiv_nullif0_of_zero_or_none _ _ h
  · intro h
    rw [mkOut_roas_pct_delta_7d]
    exact safeDiv_nullif0_of_zero_or_none _ _ h
  · intro h
    rw [mkOut_revenue_pct_delta_7d]
    exact safeDiv_nullif0_of_zero_or_none _ _ h
  · intro h
    rw [mkOut_roas_pct_delta_28d]
    exact safeDiv_nullif0_of_zero_or_none _ _ h
  · intro h
    rw [mkOut_revenue_pct_delta_28d]
    exact safeDiv_nullif0_of_zero_or_none _ _ h

/-- A concrete staging row with zero spend, zero conversions, zero
impressions, zero sessions and positive revenue. -/
def adsRowZeroSpend : UnifiedRow :=
  { client_id := 1, date := 0, channel := "google_ads", campaign_id := none,
    ad_group_id := none, device := "MOBILE", spend := some 0, clicks := some 0,
    impressions := some 0, conversions := some 0, revenue := some 5,
    sessions := some 0 }

/-- The single row of the table built from `[adsRowZeroSpend]` alone. -/
def zeroSpendOutRow : OutRow :=
  { client_id := 1, date := 0, channel := "google_ads", campaign_id := none,
    ad_group_id := none, device := "MOBILE", spend := some 0, clicks := some 0,
    impressions := some 0, sessions := some 0, conversions := some 0,
    revenue := some 5, roas := none, cpa := none, ctr := none,
    conversion_rate := none, roas_7d_avg := none, revenue_7d_avg := some 5,
    roas_28d_avg := none, revenue_28d_avg := some 5,
    roas_pct_delta_7d := none, revenue_pct_delta_7d := some 0,
    roas_pct_delta_28d := none, revenue_pct_delta_28d := some 0 }

theorem zeroSpendTable_eval :
    marketing_performance_daily [adsRowZeroSpend] [] = [zeroSpendOutRow] := by
  norm_num [marketing_performance_daily, with_baselines, unified_agg,
    unified_raw, sortByDate, processPartition, mkOut, windowFrame, rowKey,
    seriesKey, sumAgg, sumOpt, avgOpt, safeDiv, nullif0, optSub,
    adsRowZeroSpend, zeroSpendOutRow, List.insertionSort, List.filterMap_cons,
    List.range_succ, List.getD]

theorem C1_union_safe_division_witness :
    zeroSpendOutRow ∈ marketing_performance_daily [adsRowZeroSpend] [] ∧
    zeroSpendOutRow.roas = none ∧ zeroSpendOutRow.cpa = none ∧
    zeroSpendOutRow.ctr = none ∧ zeroSpendOutRow.conversion_rate = none ∧
    zeroSpendOutRow.roas_pct_delta_7d = none := by
  have hmem : zeroSpendOutRow ∈ marketing_performance_daily [adsRowZeroSpend] [] := by
    rw [zeroSpendTable_eval]
    exact List.mem_singleton.mpr rfl
  have h := C1_union_safe_division [adsRowZeroSpend] [] zeroSpendOutRow hmem
  exact ⟨hmem, h.1 (Or.inl rfl), h.2.1 (Or.inl rfl),
    h.2.2.1 (Or.inl rfl), h.2.2.2.1 (Or.inl rfl),
    h.2.2.2.2.1 (Or.inr rfl)⟩

theorem processPartition_getD (l : List UnifiedRow) (i : ℕ) (hi : i < l.length) :
    (processPartition l).getD i default = mkOut l i := by
  unfold processPartition
  rw [List.getD_eq_getElem?_getD, List.getElem?_map, List.getElem?_range hi]
  rfl

theorem windowFrame_length (k : ℕ) (l : List UnifiedRow) (i : ℕ)
    (hi : i < l.length) :
    (windowFrame k l i).length = min (i + 1) (k + 1) := by
  unfold windowFrame
  rw [List.length_drop, List.length_take]
  omega

theorem windowFrame_ne_nil (k : ℕ) (l : List UnifiedRow) (i : ℕ)
    (hi : i < l.length) : windowFrame k l i ≠ [] := by
  intro h
  have := windowFrame_length k l i hi
  rw [h] at this
  simp at this
  omega

/-- The current row is the last row of its window frame. -/
theorem windowFrame_last (k : ℕ) (l : List UnifiedRow) (i : ℕ)
    (hi : i < l.length) :
    (windowFrame k l i).getD ((windowFrame k l i).length - 1) default =
      l.getD i default := by
  unfold windowFrame
  rw [List.getD_eq_getElem?_getD, List.getElem?_drop,
    List.getElem?_take_of_lt
      (by rw [List.length_drop, List.length_take]; omega),
    List.getD_eq_getElem?_getD]
  have harg : i - k + ((List.drop (i - k) (List.take (i + 1) l)).length - 1) = i := by
    rw [List.length_drop, List.length_take]
    omega
  rw [harg]

/-- The window frame is purely positional: rewriting every row's date in any
way whatsoever leaves the selected frame (up to the same rewriting) unchanged,
so the windows are row-based, not calendar-based. -/
theorem windowFrame_positional (k : ℕ) (l : List UnifiedRow) (i : ℕ)
    (f : ℤ → ℤ) :
    windowFrame k (l.map (fun r => { r with date := f r.date })) i =
      (windowFrame k l i).map (fun r => { r with date := f r.date }) := by
  unfold windowFrame
  rw [List.map_drop, List.map_take]

theorem filterMap_id_eq_nil_of_all_none (xs : List (Option ℚ))
    (h : ∀ x ∈ xs, x = none) : xs.filterMap id = [] := by
  induction xs with
  | nil => rfl
  | cons a as ih =>
    have ha := h a (List.mem_cons_self _ _)
    subst ha
    simpa using ih (fun x hx => h x (List.mem_cons_of_mem _ hx))

/-- C2: in every partition series ordered by date, the 7d and 28d baselines
are trailing averages over a row-based window: the frame at row `i` holds
`min (i+1) 7` (resp. `min (i+1) 28`) rows ending at the current row, each
baseline column is the average over that frame, frame selection ignores the
dates entirely (row-based, not calendar-based), and a series shorter than the
window still yields a baseline from however many rows exist, down to 1. -/
theorem C2_trailing_row_windows (l : List UnifiedRow) (i : ℕ)
    (hi : i < l.length) :
    ((processPartition l).getD i default).roas_7d_avg =
      avgOpt ((windowFrame 6 l i).map (fun r => safeDiv r.revenue r.spend)) ∧
    ((processPartition l).getD i default).revenue_7d_avg =
      avgOpt ((windowFrame 6 l i).map (·.revenue)) ∧
    ((processPartition l).getD i default).roas_28d_avg =
      avgOpt ((windowFrame 27 l i).map (fun r => safeDiv r.revenue r.spend)) ∧
    ((processPartition l).getD i default).revenue_28d_avg =
      avgOpt ((windowFrame 27 l i).map (·.revenue)) ∧
    (windowFrame 6 l i).length = min (i + 1) 7 ∧
    (windowFrame 27 l i).length = min (i + 1) 28 ∧
    (windowFrame 6 l i).getD ((windowFrame 6 l i).length - 1) default =
      l.getD i default ∧
    (∀ f : ℤ → ℤ,
      windowFrame 6 (l.map (fun r => { r with date := f r.date })) i =
        (windowFrame 6 l i).map (fun r => { r with date := f r.date })) ∧
    ((∀ r ∈ windowFrame 6 l i, r.revenue.isSome) →
      (((processPartition l).getD i default).revenue_7d_avg).isSome) ∧
    ((∀ r ∈ windowFrame 27 l i, r.revenue.isSome) →
      (((processPartition l).getD i default).revenue_28d_avg).isSome) := by
  rw [processPartition_getD l i hi]
  refine ⟨mkOut_roas_7d_avg l i, mkOut_revenue_7d_avg l i,
    mkOut_roas_28d_avg l i, mkOut_revenue_28d_avg l i,
    windowFrame_length 6 l i hi, windowFrame_length 27 l i hi,
    windowFrame_last 6 l i hi, fun f => windowFrame_positional 6 l i f,
    ?_, ?_⟩
  · intro h
    rw [mkOut_revenue_7d_avg]
    refine avgOpt_isSome_of_all_some _ ?_ ?_
    · simpa using windowFrame_ne_nil 6 l i hi
    · intro x hx
      rw [List.mem_map] at hx
      obtain ⟨r, hr, rfl⟩ := hx
      exact h r hr
  · intro h
    rw [mkOut_revenue_28d_avg]
    refine avgOpt_isSome_of_all_some _ ?_ ?_
    · simpa using windowFrame_ne_nil 27 l i hi
    · intro x hx
      rw [List.mem_map] at hx
      obtain ⟨r, hr, rfl⟩ := hx
      exact h r hr

/-- A simple aggregated series row used as concrete witness input. -/
def seriesRow (d : ℤ) (sp rev : ℚ) : UnifiedRow :=
  { client_id := 1, date := d, channel := "google_ads", campaign_id := none,
    ad_group_id := none, device := "DESKTOP", spend := some sp,
    clicks := some 1, impressions := some 10, conversions := some 1,
    revenue := some rev, sessions := some 0 }

theorem C2_trailing_row_windows_witness :
    (windowFrame 6 [seriesRow 0 2 4, seriesRow 1 2 6] 1).length = min 2 7 ∧
    (((processPartition [seriesRow 0 2 4, seriesRow 1 2 6]).getD 1
        default).revenue_7d_avg).isSome := by
  have h := C2_trailing_row_windows [seriesRow 0 2 4, seriesRow 1 2 6] 1
    (by norm_num)
  exact ⟨h.2.2.2.2.1, h.2.2.2.2.2.2.2.2.1 (by simp [windowFrame, seriesRow])⟩

/-- C10: the ROAS baselines average the per-row roas over the trailing window
with NULL values ignored: `roas_7d_avg` (resp. `roas_28d_avg`) at row `i` is
`some v` exactly when some row of the window has a non-NULL roas and `v` is
the mean of the non-NULL roas values only (rows with zero or NULL spend are
excluded, not counted as zero); and when every row in the window has zero or
NULL spend the baseline is NULL, which makes the roas percent-delta NULL. -/
theorem C10_roas_baseline_null_handling (l : List UnifiedRow) (i : ℕ)
    (hi : i < l.length) :
    (∀ v : ℚ,
      ((processPartition l).getD i default).roas_7d_avg = some v ↔
        (((windowFrame 6 l i).map
            (fun r => safeDiv r.revenue r.spend)).filterMap id ≠ [] ∧
          v = (((windowFrame 6 l i).map
              (fun r => safeDiv r.revenue r.spend)).filterMap id).sum /
            ((((windowFrame 6 l i).map
                (fun r => safeDiv r.revenue r.spend)).filterMap id).length : ℚ))) ∧
    (∀ v : ℚ,
      ((processPartition l).getD i default).roas_28d_avg = some v ↔
        (((windowFrame 27 l i).map
            (fun r => safeDiv r.revenue r.spend)).filterMap id ≠ [] ∧
          v = (((windowFrame 27 l i).map
              (fun r => safeDiv r.revenue r.spend)).filterMap id).sum /
            ((((windowFrame 27 l i).map
                (fun r => safeDiv r.revenue r.spend)).filterMap id).length : ℚ))) ∧
    ((∀ r ∈ windowFrame 6 l i, r.spend = some 0 ∨ r.spend = none) →
      ((processPartition l).getD i default).roas_7d_avg = none ∧
      ((processPartition l).getD i default).roas_pct_delta_7d = none) ∧
    ((∀ r ∈ windowFrame 27 l i, r.spend = some 0 ∨ r.spend = none) →
      ((processPartition l).getD i default).roas_28d_avg = none ∧
      ((processPartition l).getD i default).roas_pct_delta_28d = none) := by
  rw [processPartition_getD l i hi]
  refine ⟨?_, ?_, ?_, ?_⟩
  · intro v
    rw [mkOut_roas_7d_avg]
    exact avgOpt_eq_some_iff _ v
  · intro v
    rw [mkOut_roas_28d_avg]
    exact avgOpt_eq_some_iff _ v
  · intro h
    have hnone : (mkOut l i).roas_7d_avg = none := by
      rw [mkOut_roas_7d_avg, avgOpt_eq_none_iff]
      refine filterMap_id_eq_nil_of_all_none _ ?_
      intro x hx
      rw [List.mem_map] at hx
      obtain ⟨r, hr, rfl⟩ := hx
      exact safeDiv_of_zero_or_none _ _ (h r hr)
    refine ⟨hnone, ?_⟩
    rw [mkOut_roas_pct_delta_7d]
    exact safeDiv_nullif0_of_zero_or_none _ _ (Or.inr hnone)
  · intro h
    have hnone : (mkOut l i).roas_28d_avg = none := by
      rw [mkOut_roas_28d_avg, avgOpt_eq_none_iff]
      refine filterMap_id_eq_nil_of_all_none _ ?_
      intro x hx
      rw [List.mem_map] at hx
      obtain ⟨r, hr, rfl⟩ := hx
      exact safeDiv_of_zero_or_none _ _ (h r hr)
    refine ⟨hnone, ?_⟩
    rw [mkOut_roas_pct_delta_28d]
    exact safeDiv_nullif0_of_zero_or_none _ _ (Or.inr hnone)

theorem C10_roas_baseline_null_handling_witness :
    ((processPartition [seriesRow 0 0 4]).getD 0 default).roas_7d_avg = none ∧
    ((processPartition [seriesRow 0 0 4]).getD 0 default).roas_pct_delta_7d = none := by
  have h := C10_roas_baseline_null_handling [seriesRow 0 0 4] 0 (by norm_num)
  exact h.2.2.1 (by simp [windowFrame, seriesRow])

theorem filterMap_id_sum_zero (xs : List (Option ℚ))
    (h : ∀ x ∈ xs, x = some 0) : (xs.filterMap id).sum = 0 := by
  induction xs with
  | nil => rfl
  | cons a as ih =>
    have ha := h a (List.mem_cons_self _ _)
    subst ha
    have := ih (fun x hx => h x (List.mem_cons_of_mem _ hx))
    simpa using this

theorem sumOpt_all_zero (xs : List (Option ℚ)) (hne : xs ≠ [])
    (h : ∀ x ∈ xs, x = some 0) : sumOpt xs = some 0 := by
  rcases xs with _ | ⟨a, as⟩
  · exact absurd rfl hne
  · have ha := h a (List.mem_cons_self _ _)
    subst ha
    have hsum := filterMap_id_sum_zero as
      (fun x hx => h x (List.mem_cons_of_mem _ hx))
    simp only [sumOpt, List.filterMap_cons, id]
    simp [hsum]

/-- Every row of `unified_agg raw` is the group-sum over a nonempty set of
rows of `raw` sharing the same grouping key. -/
theorem mem_unified_agg {raw : List UnifiedRow} {a : UnifiedRow}
    (h : a ∈ unified_agg raw) :
    ∃ k : GroupKey, ∃ grp : List UnifiedRow,
      a = sumAgg k grp ∧ grp ≠ [] ∧ ∀ r ∈ grp, r ∈ raw := by
  unfold unified_agg at h
  rw [List.mem_map] at h
  obtain ⟨k, hk, rfl⟩ := h
  refine ⟨k, _, rfl, ?_, ?_⟩
  · rw [List.mem_dedup, List.mem_map] at hk
    obtain ⟨r, hr, rfl⟩ := hk
    intro hnil
    have : r ∈ raw.filter (fun x => decide (rowKey x = rowKey r)) := by
      rw [List.mem_filter]
      exact ⟨hr, by simp⟩
    rw [hnil] at this
    simp at this
  · intro r hr
    exact (List.mem_filter.mp hr).1

/-! ### The single-statement unified-table variant

The single-statement job builds `marketing_performance_daily` directly from
the raw Ads and GA4 sources.  Its `ads_daily` and `ga4_daily` CTEs COALESCE
every metric to a non-NULL value, and its `unified_raw` CTE hard-codes
`0 AS sessions` in both union branches. -/

/-- A row of the `ads_daily` CTE of the single-statement variant (all metric
columns COALESCEd, hence non-NULL). -/
structure AdsDailyRow where
  client_id : ℤ
  date : ℤ
  campaign_id : Option String
  ad_group_id : Option String
  device : String
  spend : ℚ
  clicks : ℚ
  impressions : ℚ
  conversions : ℚ
  revenue : ℚ
deriving DecidableEq, Repr

/-- A row of the `ga4_daily` CTE of the single-statement variant (conversions
from COUNTIF, revenue from a COALESCEd SUM, hence non-NULL). -/
structure Ga4DailyRow where
  date : ℤ
  device : String
  conversions : ℚ
  revenue : ℚ
deriving DecidableEq, Repr

/-- The `unified_raw` CTE of the single-statement variant: the ads branch
carries channel 'google_ads' and `0 AS sessions`; the GA4 branch carries
client_id 1, channel 'ga4', NULL campaign/ad-group ids, zero
spend/clicks/impressions and again `0 AS sessions`. -/
def unified_raw_single (ads_daily : List AdsDailyRow)
    (ga4_daily : List Ga4DailyRow) : List UnifiedRow :=
  ads_daily.map (fun a =>
    { client_id := a.client_id, date := a.date, channel := "google_ads",
      campaign_id := a.campaign_id, ad_group_id := a.ad_group_id,
      device := a.device, spend := some a.spend, clicks := some a.clicks,
      impressions := some a.impressions, conversions := some a.conversions,
      revenue := some a.revenue, sessions := some 0 })
  ++ ga4_daily.map (fun g =>
    { client_id := 1, date := g.date, channel := "ga4", campaign_id := none,
      ad_group_id := none, device := g.device, spend := some 0,
      clicks := some 0, impressions := some 0,
      conversions := some g.conversions, revenue := some g.revenue,
      sessions := some 0 })

/-- The `marketing_performance_daily` table built by the single-statement
variant. -/
def marketing_performance_daily_single (ads_daily : List AdsDailyRow)
    (ga4_daily : List Ga4DailyRow) : List OutRow :=
  with_baselines (unified_agg (unified_raw_single ads_daily ga4_daily))

theorem unified_raw_single_sessions (ads : List AdsDailyRow)
    (ga4 : List Ga4DailyRow) :
    ∀ r ∈ unified_raw_single ads ga4, r.sessions = some 0 := by
  intro r hr
  unfold unified_raw_single at hr
  rw [List.mem_append] at hr
  rcases hr with hr | hr <;>
  · rw [List.mem_map] at hr
    obtain ⟨x, _, rfl⟩ := hr
    rfl

/-- C9: in the single-statement unified-table job variant, both union
branches hard-code sessions to 0, so every row of the produced table has
sessions = 0, and conversion_rate (conversions/sessions, zero-guarded) is
NULL on every row. -/
theorem C9_single_variant_sessions_zero (ads : List AdsDailyRow)
    (ga4 : List Ga4DailyRow) (out : OutRow)
    (hmem : out ∈ marketing_performance_daily_single ads ga4) :
    out.sessions = some 0 ∧ out.conversion_rate = none := by
  obtain ⟨s, i, hi, rfl, hsub⟩ := mem_with_baselines hmem
  have hrowmem : s.getD i default ∈ unified_agg (unified_raw_single ads ga4) := by
    refine hsub _ ?_
    rw [List.getD_eq_getElem s default hi]
    exact List.getElem_mem hi
  obtain ⟨k, grp, heq, hne, hgrp⟩ := mem_unified_agg hrowmem
  have hsess : (s.getD i default).sessions = some 0 := by
    rw [heq]
    show sumOpt (grp.map (·.sessions)) = some 0
    refine sumOpt_all_zero _ ?_ ?_
    · simpa using hne
    · intro x hx
      rw [List.mem_map] at hx
      obtain ⟨r, hr, rfl⟩ := hx
      exact unified_raw_single_sessions ads ga4 r (hgrp r hr)
  refine ⟨?_, ?_⟩
  · rw [mkOut_sessions]
    exact hsess
  · rw [mkOut_conversion_rate]
    exact safeDiv_nullif0_of_zero_or_none _ _ (Or.inl hsess)

/-- A concrete `ads_daily` row with positive spend and revenue. -/
def adsDailySample : AdsDailyRow :=
  { client_id := 1, date := 0, campaign_id := none, ad_group_id := none,
    device := "MOBILE", spend := 10, clicks := 2, impressions := 100,
    conversions := 1, revenue := 50 }

/-- The single row of the single-statement table built from
`[adsDailySample]` alone. -/
def singleVariantOutRow : OutRow :=
  { client_id := 1, date := 0, channel := "google_ads", campaign_id := none,
    ad_group_id := none, device := "MOBILE", spend := some 10,
    clicks := some 2, impressions := some 100, sessions := some 0,
    conversions := some 1, revenue := some 50, roas := some 5,
    cpa := some 10, ctr := some (1 / 50), conversion_rate := none,
    roas_7d_avg := some 5, revenue_7d_avg := some 50,
    roas_28d_avg := some 5, revenue_28d_avg := some 50,
    roas_pct_delta_7d := some 0, revenue_pct_delta_7d := some 0,
    roas_pct_delta_28d := some 0, revenue_pct_delta_28d := some 0 }

theorem singleVariantTable_eval :
    marketing_performance_daily_single [adsDailySample] [] =
      [singleVariantOutRow] := by
  norm_num [marketing_performance_daily_single, with_baselines, unified_agg,
    unified_raw_single, sortByDate, processPartition, mkOut, windowFrame,
    rowKey, seriesKey, sumAgg, sumOpt, avgOpt, safeDiv, nullif0, optSub,
    adsDailySample, singleVariantOutRow, List.insertionSort,
    List.filterMap_cons, List.range_succ, List.getD]

theorem C9_single_variant_sessions_zero_witness :
    singleVariantOutRow ∈ marketing_performance_daily_single [adsDailySample] [] ∧
    singleVariantOutRow.sessions = some 0 ∧
    singleVariantOutRow.conversion_rate = none := by
  have hmem : singleVariantOutRow ∈
      marketing_performance_daily_single [adsDailySample] [] := by
    rw [singleVariantTable_eval]
    exact List.mem_singleton.mpr rfl
  exact ⟨hmem, C9_single_variant_sessions_zero [adsDailySample] []
    singleVariantOutRow hmem⟩

/-! ### Table replacement semantics -/

/-- `CREATE OR REPLACE TABLE marketing_performance_daily ... AS (...)`: one
run of the metrics aggregation job replaces the whole table with a pure
function of the staging sources; the previous table contents are never
read. -/
def runUnifiedTableJob (prev : List OutRow) (ads ga4 : List UnifiedRow) :
    List OutRow :=
  marketing_performance_daily ads ga4

/-- Modelled from the spec: the incremental-window optimization ("only rows
with date ≥ cutoff are replaced") — the runner script that would implement it
is not part of this repository, only the full-replacement SQL is.  Rows
before the cutoff are kept from the previous table; rows at or after the
cutoff are recomputed from the sources. -/
def runUnifiedTableJobIncremental (cutoff : ℤ) (prev : List OutRow)
    (ads ga4 : List UnifiedRow) : List OutRow :=
  prev.filter (fun r => decide (r.date < cutoff)) ++
    (marketing_performance_daily ads ga4).filter
      (fun r => decide (cutoff ≤ r.date))

theorem filter_lt_of_filter_le (cutoff : ℤ) (L : List OutRow) :
    (L.filter (fun r => decide (cutoff ≤ r.date))).filter
      (fun r => decide (r.date < cutoff)) = [] := by
  rw [List.filter_filter]
  rw [List.filter_eq_nil_iff]
  intro r _
  simp only [Bool.and_eq_true, decide_eq_true_eq]
  omega

theorem filter_le_of_filter_lt (cutoff : ℤ) (L : List OutRow) :
    (L.filter (fun r => decide (r.date < cutoff))).filter
      (fun r => decide (cutoff ≤ r.date)) = [] := by
  rw [List.filter_filter]
  rw [List.filter_eq_nil_iff]
  intro r _
  simp only [Bool.and_eq_true, decide_eq_true_eq]
  omega

/-- C3: one run of the metrics aggregation job fully replaces the
`marketing_performance_daily` table — the result is a pure function of the
staging sources, independent of the previous table state — so re-running the
job on identical source rows yields an identical table (idempotent
recomputation); under the incremental-window variant, rows before the cutoff
are exactly the previous table's rows before the cutoff and rows at or after
the cutoff are exactly the recomputed rows at or after the cutoff. -/
theorem C3_full_replacement_idempotent (prev prev' : List OutRow)
    (ads ga4 : List UnifiedRow) (cutoff : ℤ) :
    runUnifiedTableJob prev ads ga4 = runUnifiedTableJob prev' ads ga4 ∧
    runUnifiedTableJob (runUnifiedTableJob prev ads ga4) ads ga4 =
      runUnifiedTableJob prev ads ga4 ∧
    (runUnifiedTableJobIncremental cutoff prev ads ga4).filter
        (fun r => decide (r.date < cutoff)) =
      prev.filter (fun r => decide (r.date < cutoff)) ∧
    (runUnifiedTableJobIncremental cutoff prev ads ga4).filter
        (fun r => decide (cutoff ≤ r.date)) =
      (marketing_performance_daily ads ga4).filter
        (fun r => decide (cutoff ≤ r.date)) := by
  refine ⟨rfl, rfl, ?_, ?_⟩
  · unfold runUnifiedTableJobIncremental
    rw [List.filter_append, filter_lt_of_filter_le, List.append_nil,
      List.filter_filter]
    congr 1
    funext a
    rw [Bool.and_self]
  · unfold runUnifiedTableJobIncremental
    rw [List.filter_append, filter_le_of_filter_lt, List.nil_append,
      List.filter_filter]
    congr 1
    funext a
    rw [Bool.and_self]

/-! ### Decision lifecycle (§4.8)

Modelled from the spec: the repository holds only the `decision_history`
table schema with the comment `Decision lifecycle: NEW -> REVIEWED ->
APPLIED -> VERIFIED`; the transition-validation code itself is not in the
repository. -/

inductive DecisionStatus where
  | NEW
  | REVIEWED
  | APPLIED
  | VERIFIED
deriving DecidableEq, Repr

/-- Position of a status along the one-directional lifecycle. -/
def statusIndex : DecisionStatus → ℕ
  | .NEW => 0
  | .REVIEWED => 1
  | .APPLIED => 2
  | .VERIFIED => 3

/-- A `decision_history` row (lifecycle-relevant fields). -/
structure DecisionHistoryRow where
  history_id : String
  insight_id : String
  recommended_action : String
  status : DecisionStatus
  applied_by : Option String
  applied_at : Option ℤ
deriving DecidableEq, Repr

/-- Modelled from the spec: a status change request is accepted only when it
is the next step of NEW→REVIEWED→APPLIED→VERIFIED; otherwise it is rejected
and the row is returned unchanged (no mutation applied). The boolean reports
acceptance. -/
def applyStatusTransition (row : DecisionHistoryRow)
    (target : DecisionStatus) : DecisionHistoryRow × Bool :=
  if statusIndex target = statusIndex row.status + 1 then
    ({ row with status := target }, true)
  else
    (row, false)

/-- Modelled from the spec: only APPLIED decisions are eligible for outcome
evaluation. -/
def eligibleForOutcome (row : DecisionHistoryRow) : Bool :=
  decide (row.status = .APPLIED)

/-- C4: DecisionHistory status only moves forward along
NEW→REVIEWED→APPLIED→VERIFIED: each single forward step succeeds; any
backward (or self) transition and any skipping transition is rejected with
the row unchanged; and a decision is eligible for outcome evaluation exactly
when its status is APPLIED. -/
theorem C4_decision_lifecycle_forward_only (row : DecisionHistoryRow)
    (target : DecisionStatus) :
    (row.status = .NEW →
      applyStatusTransition row .REVIEWED =
        ({ row with status := .REVIEWED }, true)) ∧
    (row.status = .REVIEWED →
      applyStatusTransition row .APPLIED =
        ({ row with status := .APPLIED }, true)) ∧
    (row.status = .APPLIED →
      applyStatusTransition row .VERIFIED =
        ({ row with status := .VERIFIED }, true)) ∧
    (statusIndex target ≤ statusIndex row.status →
      applyStatusTransition row target = (row, false)) ∧
    (statusIndex row.status + 1 < statusIndex target →
      applyStatusTransition row target = (row, false)) ∧
    (eligibleForOutcome row = true ↔ row.status = .APPLIED) := by
  refine ⟨?_, ?_, ?_, ?_, ?_, ?_⟩
  · intro h
    unfold applyStatusTransition
    rw [h]
    rfl
  · intro h
    unfold applyStatusTransition
    rw [h]
    rfl
  · intro h
    unfold applyStatusTransition
    rw [h]
    rfl
  · intro h
    unfold applyStatusTransition
    rw [if_neg (by omega)]
  · intro h
    unfold applyStatusTransition
    rw [if_neg (by omega)]
  · unfold eligibleForOutcome
    exact decide_eq_true_iff

/-- A concrete decision-history row in status APPLIED. -/
def appliedDecisionRow : DecisionHistoryRow :=
  { history_id := "h1", insight_id := "i1",
    recommended_action := "scale_down", status := .APPLIED,
    applied_by := some ("ops"), applied_at := some 100 }

theorem C4_decision_lifecycle_forward_only_witness :
    applyStatusTransition appliedDecisionRow .VERIFIED =
      ({ appliedDecisionRow with status := .VERIFIED }, true) ∧
    applyStatusTransition appliedDecisionRow .NEW =
      (appliedDecisionRow, false) ∧
    eligibleForOutcome appliedDecisionRow = true := by
  have h := C4_decision_lifecycle_forward_only appliedDecisionRow .NEW
  exact ⟨h.2.2.1 rfl, h.2.2.2.1 (by decide), h.2.2.2.2.2.mpr rfl⟩

/-! ### Noise suppression (§4.7)

Modelled from the spec: the Noise Suppressor's code is not in the
repository; the spec defines a `SuppressionState (insight_hash,
last_emitted_at, last_severity)` and the cooldown contract. -/

structure SuppressionState where
  insight_hash : String
  last_emitted_at : ℤ
  last_severity : ℕ
deriving DecidableEq, Repr

/-- Modelled from the spec: a candidate insight is emitted unless a
suppression state for its hash was emitted within the cooldown window and
the new severity is not strictly greater than the stored severity. -/
def suppressorEmits (cooldown : ℤ) (st : Option SuppressionState)
    (now : ℤ) (severity : ℕ) : Bool :=
  match st with
  | none => true
  | some s =>
    decide (cooldown < now - s.last_emitted_at) ||
      decide (s.last_severity < severity)

/-- Modelled from the spec: one suppressor step — on emission the state is
superseded with the new emission time and severity; on a drop the candidate
insight is neither created nor updated and the state is unchanged. -/
def suppressStep (cooldown : ℤ) (st : Option SuppressionState)
    (hash : String) (now : ℤ) (severity : ℕ) :
    Bool × Option SuppressionState :=
  if suppressorEmits cooldown st now severity then
    (true, some ⟨hash, now, severity⟩)
  else
    (false, st)

/-- C6: for a candidate insight whose hash has a SuppressionState emitted at
`t0` with stored severity `S` and cooldown window `C`, re-evaluating at any
time within `t0 + C` with severity ≤ `S` drops the insight and leaves the
state untouched, while re-evaluating within the window with severity > `S`
emits immediately and supersedes the state. -/
theorem C6_cooldown_suppression (C t0 now : ℤ) (S sev : ℕ) (hash : String)
    (hwithin : now ≤ t0 + C) :
    (sev ≤ S →
      suppressStep C (some ⟨hash, t0, S⟩) hash now sev =
        (false, some ⟨hash, t0, S⟩)) ∧
    (S < sev →
      suppressStep C (some ⟨hash, t0, S⟩) hash now sev =
        (true, some ⟨hash, now, sev⟩)) := by
  constructor
  · intro hsev
    unfold suppressStep suppressorEmits
    rw [if_neg]
    simp only [Bool.or_eq_true, decide_eq_true_eq]
    push_neg
    exact ⟨by omega, by omega⟩
  · intro hsev
    unfold suppressStep suppressorEmits
    rw [if_pos]
    simp only [Bool.or_eq_true, decide_eq_true_eq]
    exact Or.inr hsev

theorem C6_cooldown_suppression_witness :
    suppressStep 5 (some ⟨"hash1", 0, 2⟩) "hash1" 2 2 =
      (false, some ⟨"hash1", 0, 2⟩) ∧
    suppressStep 5 (some ⟨"hash1", 0, 2⟩) "hash1" 2 3 =
      (true, some ⟨"hash1", 2, 3⟩) := by
  have h := C6_cooldown_suppression 5 0 2 2 2 "hash1" (by omega)
  have h' := C6_cooldown_suppression 5 0 2 2 3 "hash1" (by omega)
  exact ⟨h.1 (by omega), h'.2 (by omega)⟩

/-! ### Disagreement monitor (§4.4)

Modelled from the spec: the repository holds only the
`AttributionMMMReportResponse` interface (channels, attribution_share,
mmm_share, disagreement_score, instability_flagged) and the design note
"flags instability when disagreement score exceeds threshold (e.g. 0.25)";
the computation itself is not in the repository. -/

/-- Modelled from the spec: mean absolute difference between the
attribution-share and MMM-share vectors across channels. -/
def disagreement_score (channels : List String)
    (attribution_share mmm_share : String → ℚ) : ℚ :=
  (channels.map (fun c => |attribution_share c - mmm_share c|)).sum /
    (channels.length : ℚ)

/-- Default instability threshold (0.25). -/
def defaultDisagreementThreshold : ℚ := 1 / 4

/-- Modelled from the spec: the attribution-vs-MMM comparison report. -/
structure AttributionMMMReport where
  channels : List String
  report_disagreement_score : ℚ
  report_instability_flagged : Bool
deriving Repr

def mkAttributionMMMReport (channels : List String)
    (attribution_share mmm_share : String → ℚ) (threshold : ℚ) :
    AttributionMMMReport :=
  { channels := channels,
    report_disagreement_score :=
      disagreement_score channels attribution_share mmm_share,
    report_instability_flagged :=
      decide (threshold <
        disagreement_score channels attribution_share mmm_share) }

/-- Attribution shares {A: 0.5, B: 0.3, C: 0.2} of the spec's scenario. -/
def exampleAttrShare : String → ℚ :=
  fun c => if c = "A" then 1 / 2 else if c = "B" then 3 / 10 else 1 / 5

/-- MMM shares {A: 0.3, B: 0.3, C: 0.4} of the spec's scenario. -/
def exampleMmmShare : String → ℚ :=
  fun c => if c = "A" then 3 / 10 else if c = "B" then 3 / 10 else 2 / 5

/-- C7: the report's disagreement_score is the mean absolute difference
between the attribution share vector and the MMM share vector across
channels, instability_flagged holds exactly when the score exceeds the
threshold (default 0.25 = 1/4), and on the spec's scenario — shares
{0.5, 0.3, 0.2} versus {0.3, 0.3, 0.4} — the score is 2/15 (≈ 0.133) and
the flag stays false at the default threshold. -/
theorem C7_disagreement_score_mean_abs_diff (channels : List String)
    (attribution_share mmm_share : String → ℚ) (threshold : ℚ) :
    (mkAttributionMMMReport channels attribution_share mmm_share
        threshold).report_disagreement_score =
      (channels.map
          (fun c => |attribution_share c - mmm_share c|)).sum /
        (channels.length : ℚ) ∧
    ((mkAttributionMMMReport channels attribution_share mmm_share
        threshold).report_instability_flagged = true ↔
      threshold <
        (mkAttributionMMMReport channels attribution_share mmm_share
          threshold).report_disagreement_score) ∧
    defaultDisagreementThreshold = 1 / 4 ∧
    (mkAttributionMMMReport ["A", "B", "C"] exampleAttrShare exampleMmmShare
        defaultDisagreementThreshold).report_disagreement_score = 2 / 15 ∧
    (mkAttributionMMMReport ["A", "B", "C"] exampleAttrShare exampleMmmShare
        defaultDisagreementThreshold).report_instability_flagged = false := by
  refine ⟨rfl, decide_eq_true_iff, rfl, ?_, ?_⟩
  · show disagreement_score _ _ _ = 2 / 15
    norm_num [disagreement_score, exampleAttrShare, exampleMmmShare, abs,
      show ("B" : String) ≠ "A" from by decide,
      show ("C" : String) ≠ "A" from by decide,
      show ("C" : String) ≠ "B" from by decide]
  · show decide (defaultDisagreementThreshold < disagreement_score _ _ _) = false
    rw [decide_eq_false_iff_not]
    norm_num [disagreement_score, exampleAttrShare, exampleMmmShare, abs,
      defaultDisagreementThreshold,
      show ("B" : String) ≠ "A" from by decide,
      show ("C" : String) ≠ "A" from by decide,
      show ("C" : String) ≠ "B" from by decide]

/-! ### Attribution allocation (§4.2)

Modelled from the spec: the attribution engine's code is not in the
repository, only its design (`arch.md`: "allocate revenue to channels by
spend share (or optional Markov removal effect)").  Both strategies scale
a nonnegative weight vector (spend shares, removal effects) so that the
credited revenue sums to the order's observed revenue. -/

/-- Modelled from the spec: weighted-credit attribution — each channel is
credited proportionally to its spend share in the attribution window. -/
def weighted_credit_allocate (spends : List (String × ℚ)) (revenue : ℚ) :
    List (String × ℚ) :=
  spends.map (fun p => (p.1, revenue * p.2 / (spends.map Prod.snd).sum))

/-- Modelled from the spec: Markov removal-effect attribution — each
channel's removal effect, normalized so credit sums to the observed
revenue; a channel with zero removal effect receives zero credit. -/
def markov_allocate (removal_effects : List (String × ℚ)) (revenue : ℚ) :
    List (String × ℚ) :=
  removal_effects.map
    (fun p => (p.1, revenue * p.2 / (removal_effects.map Prod.snd).sum))

theorem sum_map_scaled (l : List (String × ℚ)) (rev t : ℚ) :
    ((l.map (fun p => rev * p.2 / t)).sum) =
      rev * (l.map Prod.snd).sum / t := by
  induction l with
  | nil => simp
  | cons a as ih =>
    rw [List.map_cons, List.sum_cons, ih, List.map_cons, List.sum_cons]
    ring

/-- C8: for every attribution run and order, the credited revenue summed
over all channels equals the order's observed revenue (exactly, over ℚ),
under both the weighted-credit and the Markov removal-effect strategies
(whenever the respective weight totals are nonzero); additionally a channel
with zero removal effect receives zero credit rather than a division
error. -/
theorem C8_attribution_conservation (spends removal_effects : List (String × ℚ))
    (revenue : ℚ) :
    ((spends.map Prod.snd).sum ≠ 0 →
      ((weighted_credit_allocate spends revenue).map Prod.snd).sum = revenue) ∧
    ((removal_effects.map Prod.snd).sum ≠ 0 →
      ((markov_allocate removal_effects revenue).map Prod.snd).sum = revenue) ∧
    (∀ c : String, (c, (0 : ℚ)) ∈ removal_effects →
      (c, (0 : ℚ)) ∈ markov_allocate removal_effects revenue) := by
  refine ⟨?_, ?_, ?_⟩
  · intro h
    unfold weighted_credit_allocate
    rw [List.map_map]
    show ((spends.map (fun p => revenue * p.2 / (spends.map Prod.snd).sum)).sum) = revenue
    rw [sum_map_scaled, mul_div_assoc, div_self h, mul_one]
  · intro h
    unfold markov_allocate
    rw [List.map_map]
    show ((removal_effects.map
      (fun p => revenue * p.2 / (removal_effects.map Prod.snd).sum)).sum) = revenue
    rw [sum_map_scaled, mul_div_assoc, div_self h, mul_one]
  · intro c hc
    unfold markov_allocate
    rw [List.mem_map]
    exact ⟨(c, 0), hc, by simp⟩

theorem C8_attribution_conservation_witness :
    ((weighted_credit_allocate [("meta", 30), ("google", 70)] 200).map
      Prod.snd).sum = 200 ∧
    ((markov_allocate [("meta", 2/5), ("google", 0)] 200).map
      Prod.snd).sum = 200 ∧
    ("google", (0 : ℚ)) ∈ markov_allocate [("meta", 2/5), ("google", 0)] 200 := by
  have h := C8_attribution_conservation [("meta", 30), ("google", 70)] [] 200
  have h' := C8_attribution_conservation [] [("meta", 2/5), ("google", 0)] 200
  exact ⟨h.1 (by norm_num), h'.2.1 (by norm_num),
    h'.2.2 _ (by simp)⟩

/-! ### Insight hashing and upsert-by-hash (§4.5, §3)

Modelled from the spec: the Signal/Insight Generator's code is not in the
repository, only the `analytics_insights` schema where `insight_id` /
`insight_hash` is documented as a "deterministic id (hash of rule + entity
+ period)" and the invariant "insight_hash uniqueness is enforced at write
time (upsert-by-hash, not insert)". -/

/-- Modelled from the spec: the deterministic digest of
(rule_id/agent_id, entity_id, evaluation_period), embedded as the tagged
concatenation of the triple. -/
def insight_hash (rule_id entity_id period : String) : String :=
  rule_id ++ ":" ++ entity_id ++ ":" ++ period

/-- An insight row (hash-relevant fields plus payload). -/
structure Insight where
  hash : String
  rule_id : String
  entity_id : String
  period : String
  observed : ℚ
  severity : ℕ
deriving DecidableEq, Repr

/-- An insight built by the generator: its hash is the digest of the
(rule, entity, period) triple, never of the payload. -/
def mkInsight (rule_id entity_id period : String) (observed : ℚ)
    (severity : ℕ) : Insight :=
  { hash := insight_hash rule_id entity_id period, rule_id := rule_id,
    entity_id := entity_id, period := period, observed := observed,
    severity := severity }

/-- Modelled from the spec: a declarative signal rule (metric threshold plus
severity). -/
structure SignalRule where
  rule_id : String
  threshold : ℚ
  severity : ℕ
deriving DecidableEq, Repr

/-- One evaluated metric value for one entity and period. -/
structure MetricInput where
  entity_id : String
  period : String
  value : ℚ
deriving DecidableEq, Repr

/-- Modelled from the spec: rule evaluation — a rule fires when the observed
value falls below its threshold. -/
def evalRule (r : SignalRule) (m : MetricInput) : Option Insight :=
  if m.value < r.threshold then
    some (mkInsight r.rule_id m.entity_id m.period m.value r.severity)
  else
    none

/-- Modelled from the spec: the generator evaluates every rule against every
metric row; it is a pure function of its inputs. -/
def generateInsights (rules : List SignalRule) (metrics : List MetricInput) :
    List Insight :=
  (rules.map (fun r => metrics.filterMap (evalRule r))).flatten

/-- Modelled from the spec: upsert-by-hash — when a row with the same
`insight_hash` exists it is updated in place, otherwise the insight is
appended; a second insert is never issued. -/
def upsertByHash (store : List Insight) (ins : Insight) : List Insight :=
  if store.any (fun r => decide (r.hash = ins.hash)) then
    store.map (fun r => if r.hash = ins.hash then ins else r)
  else
    store ++ [ins]

/-- One generator run's write phase: upsert every produced insight. -/
def writeInsights (store : List Insight) (insights : List Insight) :
    List Insight :=
  insights.foldl upsertByHash store

theorem upsert_map_hash_of_mem (s : List Insight) (i : Insight)
    (h : i.hash ∈ s.map Insight.hash) :
    (upsertByHash s i).map Insight.hash = s.map Insight.hash := by
  rw [List.mem_map] at h
  obtain ⟨r, hr, hrh⟩ := h
  unfold upsertByHash
  rw [if_pos (by rw [List.any_eq_true]; exact ⟨r, hr, by simp [hrh]⟩)]
  rw [List.map_map]
  apply List.map_congr_left
  intro x _
  by_cases hc : x.hash = i.hash
  · simp [Function.comp, hc]
  · simp [Function.comp, hc]

theorem upsert_map_hash_of_not_mem (s : List Insight) (i : Insight)
    (h : i.hash ∉ s.map Insight.hash) :
    (upsertByHash s i).map Insight.hash = s.map Insight.hash ++ [i.hash] := by
  unfold upsertByHash
  rw [if_neg, List.map_append]
  · rfl
  · rw [List.any_eq_true]
    rintro ⟨r, hr, hrh⟩
    exact h (List.mem_map.mpr ⟨r, hr, by simpa using hrh⟩)

theorem hash_mem_upsert_self (s : List Insight) (i : Insight) :
    i.hash ∈ (upsertByHash s i).map Insight.hash := by
  by_cases h : i.hash ∈ s.map Insight.hash
  · rw [upsert_map_hash_of_mem s i h]; exact h
  · rw [upsert_map_hash_of_not_mem s i h]
    exact List.mem_append_right _ (List.mem_singleton.mpr rfl)

theorem hash_mem_upsert_mono (s : List Insight) (i : Insight) (x : String)
    (hm : x ∈ s.map Insight.hash) :
    x ∈ (upsertByHash s i).map Insight.hash := by
  by_cases h : i.hash ∈ s.map Insight.hash
  · rw [upsert_map_hash_of_mem s i h]; exact hm
  · rw [upsert_map_hash_of_not_mem s i h]
    exact List.mem_append_left _ hm

theorem hash_mem_write_mono (l : List Insight) (s : List Insight) (x : String)
    (hm : x ∈ s.map Insight.hash) :
    x ∈ (writeInsights s l).map Insight.hash := by
  induction l generalizing s with
  | nil => exact hm
  | cons a as ih => exact ih (upsertByHash s a) (hash_mem_upsert_mono s a x hm)

theorem hash_mem_write_all (l : List Insight) (s : List Insight) :
    ∀ j ∈ l, j.hash ∈ (writeInsights s l).map Insight.hash := by
  induction l generalizing s with
  | nil => intro j hj; simp at hj
  | cons a as ih =>
    intro j hj
    rcases List.mem_cons.mp hj with hj | hj
    · subst hj
      exact hash_mem_write_mono as (upsertByHash s j) j.hash
        (hash_mem_upsert_self s j)
    · exact ih (upsertByHash s a) j hj

theorem upsert_length_of_mem (s : List Insight) (i : Insight)
    (h : i.hash ∈ s.map Insight.hash) :
    (upsertByHash s i).length = s.length := by
  rw [List.mem_map] at h
  obtain ⟨r, hr, hrh⟩ := h
  unfold upsertByHash
  rw [if_pos (by rw [List.any_eq_true]; exact ⟨r, hr, by simp [hrh]⟩)]
  exact List.length_map _ _

theorem write_length_of_all_mem (l : List Insight) (s : List Insight)
    (h : ∀ j ∈ l, j.hash ∈ s.map Insight.hash) :
    (writeInsights s l).length = s.length := by
  induction l generalizing s with
  | nil => rfl
  | cons a as ih =>
    have hlen := upsert_length_of_mem s a (h a (List.mem_cons_self _ _))
    have hrest : ∀ j ∈ as, j.hash ∈ (upsertByHash s a).map Insight.hash :=
      fun j hj =>
        hash_mem_upsert_mono s a j.hash (h j (List.mem_cons_of_mem _ hj))
    calc (writeInsights (upsertByHash s a) as).length
        = (upsertByHash s a).length := ih (upsertByHash s a) hrest
      _ = s.length := hlen

theorem upsert_nodup_hashes (s : List Insight) (i : Insight)
    (h : (s.map Insight.hash).Nodup) :
    ((upsertByHash s i).map Insight.hash).Nodup := by
  by_cases hm : i.hash ∈ s.map Insight.hash
  · rw [upsert_map_hash_of_mem s i hm]; exact h
  · rw [upsert_map_hash_of_not_mem s i hm]
    rw [List.nodup_append]
    exact ⟨h, List.nodup_singleton _,
      fun x hx => by
        rw [List.mem_singleton]
        intro hxi
        exact hm (hxi ▸ hx)⟩

/-- C5: `insight_hash` is a deterministic function of (rule id, entity_id,
evaluation period) alone — the payload does not influence it, and every
insight the generator emits carries the digest of its triple — and writes
are upserts-by-hash: writing one run's insights a second time adds no row
(same store length), and the no-duplicate-hash invariant of the store is
preserved by every upsert. -/
theorem C5_insight_hash_idempotency (rules : List SignalRule)
    (metrics : List MetricInput) :
    (∀ (r : SignalRule) (m : MetricInput) (ins : Insight),
      evalRule r m = some ins →
        ins.hash = insight_hash r.rule_id m.entity_id m.period) ∧
    (∀ (rule_id entity_id period : String) (obs obs' : ℚ) (sev sev' : ℕ),
      (mkInsight rule_id entity_id period obs sev).hash =
        (mkInsight rule_id entity_id period obs' sev').hash) ∧
    (∀ store : List Insight,
      (writeInsights (writeInsights store (generateInsights rules metrics))
          (generateInsights rules metrics)).length =
        (writeInsights store (generateInsights rules metrics)).length) ∧
    (∀ (store : List Insight) (ins : Insight),
      (store.map Insight.hash).Nodup →
        ((upsertByHash store ins).map Insight.hash).Nodup) := by
  refine ⟨?_, ?_, ?_, ?_⟩
  · intro r m ins hev
    unfold evalRule at hev
    by_cases hc : m.value < r.threshold
    · rw [if_pos hc] at hev
      cases hev
      rfl
    · rw [if_neg hc] at hev
      cases hev
  · intro rule_id entity_id period obs obs' sev sev'
    rfl
  · intro store
    exact write_length_of_all_mem (generateInsights rules metrics)
      (writeInsights store (generateInsights rules metrics))
      (hash_mem_write_all (generateInsights rules metrics) store)
  · intro store ins h
    exact upsert_nodup_hashes store ins h

/-- A concrete rule and metric on which the rule fires. -/
def sampleRule : SignalRule :=
  { rule_id := "roas_drop", threshold := 1, severity := 3 }

def sampleMetric : MetricInput :=
  { entity_id := "campaign_42", period := "2025-01", value := 0 }

theorem C5_insight_hash_idempotency_witness :
    (mkInsight ("roas_drop") ("campaign_42") ("2025-01") 0 3).hash =
      insight_hash ("roas_drop") ("campaign_42") ("2025-01") ∧
    (writeInsights (writeInsights [] (generateInsights [sampleRule] [sampleMetric]))
        (generateInsights [sampleRule] [sampleMetric])).length =
      (writeInsights [] (generateInsights [sampleRule] [sampleMetric])).length ∧
    ((upsertByHash [] (mkInsight ("roas_drop") ("campaign_42") ("2025-01") 0 3)).map
      Insight.hash).Nodup := by
  have h := C5_insight_hash_idempotency [sampleRule] [sampleMetric]
  refine ⟨?_, h.2.2.1 [], h.2.2.2 [] _ (by simp)⟩
  have hev : evalRule sampleRule sampleMetric =
      some (mkInsight ("roas_drop") ("campaign_42") ("2025-01") 0 3) := by
    unfold evalRule sampleRule sampleMetric
    rw [if_pos (by norm_num)]
  exact h.1 sampleRule sampleMetric _ hev

end HypeonAnalytics
